import Mathlib

/-!
Verification of the lead-scraper job pipeline (backend/scraper).

Shallow embedding of the Python services:
  discovery.py   EntryPointDiscoveryService._deduplicate_leads
  enrichment.py  PlatformEnrichmentService (intensity configs, batching,
                 per-lead / per-platform enrichment, incremental scorer)
  orchestrator.py ScrapingOrchestrator (pipeline stages, progress writes,
                 final scorer, lead-update after enrichment)
  routes.py      cancel_job, create_scraping_job
  scraping_tasks.py process_job_pipeline (retry wrapper)

Python dicts are modelled as association lists (insertion order, key
replacement on repeated assignment), optional/missing dict entries as
Option, floats as exact rationals, and fallible calls as Except values
supplied by an environment record that fixes one execution's outcomes.
-/

namespace LeadScraper

/-- JobStatus enumeration from models.py. -/
inductive JobStatus
  | queued
  | processing
  | completed
  | failed
  | cancelled
  deriving DecidableEq, Repr

/-- ScrapingIntensity enumeration from models.py. -/
inductive ScrapingIntensity
  | basic
  | standard
  | premium
  deriving DecidableEq, Repr

/-- PlatformType enumeration from models.py. -/
inductive PlatformType
  | google_maps
  | google_business
  | linkedin
  | facebook
  | instagram
  | google_search
  deriving DecidableEq, Repr, Fintype

/-- The string value of a PlatformType member (its enum value). -/
def PlatformType.value : PlatformType → String
  | .google_maps => "google_maps"
  | .google_business => "google_business"
  | .linkedin => "linkedin"
  | .facebook => "facebook"
  | .instagram => "instagram"
  | .google_search => "google_search"

/-- A lead dictionary as passed through discovery, enrichment and the
orchestrator.  Option models an absent (or null) dict key; enrichment_data
is a Python dict from platform-value strings to a payload of type alpha. -/
structure PyLead (α : Type) where
  id : Option Nat := none
  name : Option String := none
  business_name : Option String := none
  phone : Option String := none
  email : Option String := none
  website : Option String := none
  address : Option String := none
  enrichment_data : List (String × α) := []
  quality_score : Option Nat := none
  completeness_score : Option ℚ := none
  confidence_score : Option ℚ := none
  deriving DecidableEq, Repr

/-- Python dict assignment d[k] = v: replaces the value at an existing key
in place, otherwise appends the new binding (insertion order preserved). -/
def dictSet : List (String × α) → String → α → List (String × α)
  | [], k, v => [(k, v)]
  | (k1, w) :: rest, k, v =>
    if k1 == k then (k, v) :: rest else (k1, w) :: dictSet rest k v

/-- Python dict lookup d.get(k). -/
def dictGet (d : List (String × α)) (k : String) : Option α :=
  (d.find? (fun p => p.1 == k)).map Prod.snd

/-- Python str value of an optional dict entry with default, as in
lead.get(key, ''). -/
def getStr (f : Option String) : String := f.getD ""

/-- Python str.lower(), modelled character-wise so the kernel can
evaluate it (ASCII case mapping, which covers the record data). -/
def pyLower (s : String) : String := ⟨s.data.map Char.toLower⟩

/-- Python str.strip(): removes leading and trailing whitespace. -/
def pyStrip (s : String) : String :=
  ⟨((s.data.dropWhile Char.isWhitespace).reverse.dropWhile Char.isWhitespace).reverse⟩

/-- The dedup identity key built in _deduplicate_leads:
(business_name lowered then stripped, phone stripped). -/
def dedupIdentifier (lead : PyLead α) : String × String :=
  (pyStrip (pyLower (getStr lead.business_name)), pyStrip (getStr lead.phone))

/-- Python any(identifier) over the 2-tuple of strings: at least one
component is a truthy (non-empty) string. -/
def idAny (k : String × String) : Bool :=
  !(k.1 == "") || !(k.2 == "")

/-- The loop body of EntryPointDiscoveryService._deduplicate_leads with the
running seen-set made explicit. -/
def dedupGo (seen : List (String × String)) : List (PyLead α) → List (PyLead α)
  | [] => []
  | lead :: rest =>
    let idk := dedupIdentifier lead
    if idk ∉ seen ∧ idAny idk = true then
      lead :: dedupGo (idk :: seen) rest
    else
      dedupGo seen rest

/-- EntryPointDiscoveryService._deduplicate_leads from discovery.py. -/
def deduplicate_leads (leads : List (PyLead α)) : List (PyLead α) :=
  dedupGo [] leads

/-- A discovered record with both business_name and phone blank. -/
def emptyKeyLead : PyLead Unit := {}

/-- Concrete records used to exercise deduplication. -/
def leadAcme : PyLead Unit :=
  { name := some "Ann", business_name := some "Acme Co", phone := some "+1 555" }

/-- Same normalized identity key as leadAcme (case and spacing differ). -/
def leadAcmeDup : PyLead Unit :=
  { name := some "Bob", business_name := some "  ACME CO", phone := some "+1 555 " }

/-- A record with a distinct identity key. -/
def leadBravo : PyLead Unit :=
  { name := some "Cal", business_name := some "Bravo LLC", phone := some "+1 777" }

section DedupLemmas

variable {α : Type}

theorem dedupGo_sublist (seen : List (String × String)) (leads : List (PyLead α)) :
    (dedupGo seen leads).Sublist leads := by
  induction leads generalizing seen with
  | nil => simp [dedupGo]
  | cons lead rest ih =>
    rw [dedupGo]
    split
    · exact (ih _).cons₂ lead
    · exact (ih seen).cons lead

theorem mem_dedupGo (seen : List (String × String)) (leads : List (PyLead α))
    (l : PyLead α) (hl : l ∈ dedupGo seen leads) :
    idAny (dedupIdentifier l) = true ∧ dedupIdentifier l ∉ seen := by
  induction leads generalizing seen with
  | nil => simp [dedupGo] at hl
  | cons lead rest ih =>
    rw [dedupGo] at hl
    split at hl
    · rename_i hcond
      rcases List.mem_cons.mp hl with heq | hmem
      · subst heq; exact ⟨hcond.2, hcond.1⟩
      · have h := ih _ hmem
        exact ⟨h.1, fun hin => h.2 (List.mem_cons_of_mem _ hin)⟩
    · exact ih seen hl

theorem dedupGo_find_first (seen : List (String × String)) (leads : List (PyLead α))
    (l : PyLead α) (hl : l ∈ dedupGo seen leads) :
    leads.find? (fun x => dedupIdentifier x == dedupIdentifier l) = some l := by
  induction leads generalizing seen with
  | nil => simp [dedupGo] at hl
  | cons lead rest ih =>
    rw [dedupGo] at hl
    split at hl
    · rename_i hcond
      rcases List.mem_cons.mp hl with heq | hmem
      · subst heq
        simp [List.find?]
      · have hne : dedupIdentifier lead ≠ dedupIdentifier l := by
          have h := mem_dedupGo _ _ _ hmem
          intro hcontra
          exact h.2 (by rw [← hcontra]; exact List.mem_cons_self _ _)
        rw [List.find?_cons_of_neg _ (by simpa using hne)]
        exact ih _ hmem
    · rename_i hcond
      have h := mem_dedupGo _ _ _ hl
      have hne : dedupIdentifier lead ≠ dedupIdentifier l := by
        intro hcontra
        rcases not_and_or.mp hcond with hseen | hany
        · exact h.2 (hcontra ▸ not_not.mp hseen)
        · rw [hcontra] at hany; exact hany h.1
      rw [List.find?_cons_of_neg _ (by simpa using hne)]
      exact ih seen hl

theorem dedupGo_covers (seen : List (String × String)) (leads : List (PyLead α))
    (l : PyLead α) (hl : l ∈ leads) (hany : idAny (dedupIdentifier l) = true) :
    dedupIdentifier l ∈ seen ∨
      ∃ m, m ∈ dedupGo seen leads ∧ dedupIdentifier m = dedupIdentifier l := by
  induction leads generalizing seen with
  | nil => simp at hl
  | cons lead rest ih =>
    rw [dedupGo]
    rcases List.mem_cons.mp hl with heq | hmem
    · subst heq
      split
      · exact Or.inr ⟨l, List.mem_cons_self _ _, rfl⟩
      · rename_i hcond
        rcases not_and_or.mp hcond with hseen | hanyf
        · exact Or.inl (not_not.mp hseen)
        · exact absurd hany hanyf
    · split
      · rename_i hcond
        rcases ih (dedupIdentifier lead :: seen) hmem with hin | ⟨m, hm, hk⟩
        · rcases List.mem_cons.mp hin with hk | hin'
          · exact Or.inr ⟨lead, List.mem_cons_self _ _, hk.symm⟩
          · exact Or.inl hin'
        · exact Or.inr ⟨m, List.mem_cons_of_mem _ hm, hk⟩
      · rcases ih seen hmem with hin | ⟨m, hm, hk⟩
        · exact Or.inl hin
        · exact Or.inr ⟨m, hm, hk⟩

theorem dedupGo_pairwise (seen : List (String × String)) (leads : List (PyLead α)) :
    (dedupGo seen leads).Pairwise (fun a b => dedupIdentifier a ≠ dedupIdentifier b) := by
  induction leads generalizing seen with
  | nil => simp [dedupGo]
  | cons lead rest ih =>
    rw [dedupGo]
    split
    · refine List.pairwise_cons.mpr ⟨?_, ih _⟩
      intro b hb hcontra
      have h := mem_dedupGo _ _ _ hb
      exact h.2 (by rw [← hcontra]; exact List.mem_cons_self _ _)
    · exact ih seen

end DedupLemmas

/-- C1 (counterexample).  The claim says a record whose identity key is
entirely empty (business_name and phone both blank) is always kept by the
deduplicator.  On the code, the keep-condition is
(identifier not in seen) AND any(identifier), so an entirely-empty-key
record is always dropped: deduplicating the one-element list holding such a
record yields the empty list. -/
theorem dedup_drops_empty_key_counterexample :
    deduplicate_leads [emptyKeyLead] = ([] : List (PyLead Unit)) := by decide

/-- C1 (amended).  The deduplicator keeps only the first record among those
sharing the same normalized (business_name, phone) identity key, preserves
the input order of survivors (the output is a sublist of the input), and
always DROPS every record whose key is entirely empty; every record with a
non-empty key is represented in the output by the first occurrence of its
key, and survivors have pairwise distinct keys. -/
theorem dedup_first_wins_drops_empty (α : Type) (leads : List (PyLead α)) :
    (deduplicate_leads leads).Sublist leads ∧
    (∀ l, l ∈ deduplicate_leads leads → idAny (dedupIdentifier l) = true) ∧
    (∀ l, l ∈ deduplicate_leads leads →
      leads.find? (fun x => dedupIdentifier x == dedupIdentifier l) = some l) ∧
    (∀ l, l ∈ leads → idAny (dedupIdentifier l) = true →
      ∃ m, m ∈ deduplicate_leads leads ∧ dedupIdentifier m = dedupIdentifier l) ∧
    (deduplicate_leads leads).Pairwise
      (fun a b => dedupIdentifier a ≠ dedupIdentifier b) := by
  refine ⟨dedupGo_sublist [] leads, ?_, ?_, ?_, dedupGo_pairwise [] leads⟩
  · intro l hl; exact (mem_dedupGo [] leads l hl).1
  · intro l hl; exact dedupGo_find_first [] leads l hl
  · intro l hl hany
    rcases dedupGo_covers [] leads l hl hany with hin | h
    · simp at hin
    · exact h

/-- C1 (witness).  On the concrete input [leadAcme, emptyKeyLead,
leadAcmeDup, leadBravo] the survivor leadAcme is the first occurrence of
its key, and leadBravo's key is represented in the output. -/
theorem dedup_first_wins_drops_empty_witness :
    leadAcme ∈ deduplicate_leads [leadAcme, emptyKeyLead, leadAcmeDup, leadBravo] ∧
    [leadAcme, emptyKeyLead, leadAcmeDup, leadBravo].find?
      (fun x => dedupIdentifier x == dedupIdentifier leadAcme) = some leadAcme ∧
    ∃ m, m ∈ deduplicate_leads [leadAcme, emptyKeyLead, leadAcmeDup, leadBravo] ∧
      dedupIdentifier m = dedupIdentifier leadBravo := by
  refine ⟨by decide, ?_, ?_⟩
  · exact (dedup_first_wins_drops_empty Unit
      [leadAcme, emptyKeyLead, leadAcmeDup, leadBravo]).2.2.1 leadAcme (by decide)
  · exact (dedup_first_wins_drops_empty Unit
      [leadAcme, emptyKeyLead, leadAcmeDup, leadBravo]).2.2.2.1 leadBravo
      (by decide) (by decide)

/-! ## Scorers (orchestrator._calculate_quality_scores and
enrichment._calculate_enrichment_scores) -/

/-- Truthiness of an optional string field as Python sees lead.get(field):
present and non-empty. -/
def truthyStr : Option String → Bool
  | none => false
  | some s => !(s == "")

/-- The per-field test in ScrapingOrchestrator._calculate_quality_scores:
field and field.strip() -- present, non-empty, and non-blank once
stripped. -/
def filledStr : Option String → Bool
  | none => false
  | some s => !(s == "") && !(pyStrip s == "")

/-- The six base contact fields both scorers inspect, in source order. -/
def baseFields (l : PyLead α) : List (Option String) :=
  [l.name, l.business_name, l.phone, l.email, l.website, l.address]

/-- The three scores written back onto a lead. -/
structure ScoreTriple where
  quality_score : Nat
  completeness_score : ℚ
  confidence_score : ℚ
  deriving DecidableEq, Repr

/-- The per-lead body of ScrapingOrchestrator._calculate_quality_scores
(the final, simple-stage scorer): completeness = filled/6; quality =
int(completeness*100), plus min(len(enrichment_data), 20) capped at 100
when enrichment_data is non-empty; confidence = 0.8 if quality > 70 else
0.6.  Python int() truncation on these non-negative values is the floor. -/
def calculate_quality_scores (l : PyLead α) : ScoreTriple :=
  let filled_fields : Nat := (baseFields l).countP filledStr
  let completeness_score : ℚ := (filled_fields : ℚ) / 6
  let base : Nat := (⌊completeness_score * 100⌋).toNat
  let quality_score : Nat :=
    if l.enrichment_data.isEmpty then base
    else min 100 (base + min l.enrichment_data.length 20)
  { quality_score := quality_score
    completeness_score := completeness_score
    confidence_score := if 70 < quality_score then 8/10 else 6/10 }

/-- PlatformEnrichmentService._calculate_enrichment_scores (the incremental
scorer run during enrichment): base completeness = truthy-filled/6;
enrichment bonus = 0.1 per enrichment_data entry; total capped at 1.0;
quality = int(total*100); confidence = min(0.95, 0.6 + 0.1*platforms). -/
def calculate_enrichment_scores (l : PyLead α) : ScoreTriple :=
  let filled_base : Nat := (baseFields l).countP truthyStr
  let base_completeness : ℚ := (filled_base : ℚ) / 6
  let enrichment_bonus : ℚ := (l.enrichment_data.length : ℚ) * (1/10)
  let total_completeness : ℚ := min 1 (base_completeness + enrichment_bonus)
  let quality_score : Nat := (⌊total_completeness * 100⌋).toNat
  let platform_count : Nat := l.enrichment_data.length
  { quality_score := quality_score
    completeness_score := total_completeness
    confidence_score := min (95/100) (6/10 + (platform_count : ℚ) * (1/10)) }

/-- Modelled from the spec: the single scoring formula claim C4 states,
with total completeness = filled/6 + 0.1 per platform capped at 1.0 and
quality = round(total*100) + 1 point per platform up to +20, capped at
100.  Compared below against both scorers translated from the source. -/
def specClaimedScores (l : PyLead α) : ℚ × Nat :=
  let total : ℚ := min 1 (((baseFields l).countP filledStr : ℚ) / 6
      + (l.enrichment_data.length : ℚ) * (1/10))
  let quality : Nat := min 100 ((round (total * 100)).toNat
      + min l.enrichment_data.length 20)
  (total, quality)

/-- A lead with one non-blank base field and one enriched platform. -/
def leadOneField : PyLead Unit :=
  { name := some "A", enrichment_data := [("linkedin", ())] }

theorem countP_baseFields_le (l : PyLead α) (p : Option String → Bool) :
    (baseFields l).countP p ≤ 6 := by
  simpa using List.countP_le_length (p := p) (l := baseFields l)

theorem floor_base_le_100 (n : Nat) (hn : n ≤ 6) :
    (⌊((n : ℚ) / 6) * 100⌋).toNat ≤ 100 := by
  have h1 : ((n : ℚ) / 6) * 100 ≤ 100 := by
    have h6 : (n : ℚ) ≤ 6 := by exact_mod_cast hn
    nlinarith
  have h2 : (⌊((n : ℚ) / 6) * 100⌋) ≤ ⌊(100 : ℚ)⌋ := Int.floor_le_floor h1
  have h3 : (⌊(100 : ℚ)⌋) = 100 := by norm_num
  omega

theorem leadOneField_claimed_eval :
    specClaimedScores leadOneField = (4/15, 28) := by
  have hc : (baseFields leadOneField).countP filledStr = 1 := by decide
  have hlen : leadOneField.enrichment_data.length = 1 := rfl
  have hmin : min (1 : ℚ) ((1 : ℚ) / 6 + (1 : ℚ) * (1/10)) = 4/15 := by norm_num
  have hround : (round ((4 : ℚ)/15 * 100)).toNat = 27 := by
    rw [round_eq, show (⌊(4 : ℚ)/15 * 100 + 1/2⌋) = 27 by norm_num]
    rfl
  simp only [specClaimedScores, hc, hlen, Nat.cast_one, hmin, hround]
  norm_num

theorem leadOneField_final_eval :
    calculate_quality_scores leadOneField = ⟨17, 1/6, 6/10⟩ := by
  have hc : (baseFields leadOneField).countP filledStr = 1 := by decide
  have hed : leadOneField.enrichment_data = [("linkedin", ())] := rfl
  have hfloor : (⌊(1 : ℚ) / 6 * 100⌋).toNat = 16 := by
    rw [show (⌊(1 : ℚ) / 6 * 100⌋) = 16 by norm_num]
    rfl
  simp only [calculate_quality_scores, hc, hed, Nat.cast_one, hfloor]
  norm_num

theorem leadOneField_incr_eval :
    calculate_enrichment_scores leadOneField = ⟨26, 4/15, 7/10⟩ := by
  have hc : (baseFields leadOneField).countP truthyStr = 1 := by decide
  have hed : leadOneField.enrichment_data = [("linkedin", ())] := rfl
  have hmin : min (1 : ℚ) ((1 : ℚ) / 6 + (1 : ℚ) * (1/10)) = 4/15 := by norm_num
  have hfloor : (⌊(4 : ℚ)/15 * 100⌋).toNat = 26 := by
    rw [show (⌊(4 : ℚ)/15 * 100⌋) = 26 by norm_num]
    rfl
  simp only [calculate_enrichment_scores, hc, hed, Nat.cast_one,
    List.length_cons, List.length_nil, hmin, hfloor]
  norm_num
  rfl

/-- C4 (counterexample).  On a lead with exactly one non-blank base field
and one enriched platform, the claimed formula yields total completeness
4/15 and quality 28, but the final-stage scorer of the code yields
completeness 1/6 (no enrichment bonus on completeness) and quality 17
(truncation, not rounding), and the enrichment-stage scorer yields quality
26 (truncation, no per-platform point bonus).  Neither scorer computes
what the claim states. -/
theorem scorer_formula_counterexample :
    specClaimedScores leadOneField = (4/15, 28) ∧
    (calculate_quality_scores leadOneField).completeness_score = 1/6 ∧
    (calculate_quality_scores leadOneField).quality_score = 17 ∧
    (calculate_enrichment_scores leadOneField).quality_score = 26 ∧
    (calculate_quality_scores leadOneField).completeness_score ≠
      (specClaimedScores leadOneField).1 ∧
    (calculate_quality_scores leadOneField).quality_score ≠
      (specClaimedScores leadOneField).2 ∧
    (calculate_enrichment_scores leadOneField).quality_score ≠
      (specClaimedScores leadOneField).2 := by
  rw [leadOneField_claimed_eval, leadOneField_final_eval, leadOneField_incr_eval]
  refine ⟨rfl, rfl, rfl, rfl, by norm_num, by norm_num, by norm_num⟩

/-- C4 (amended).  The two scorers compute different formulas.  Final
stage: completeness = filled/6 with no enrichment bonus, and quality =
min(100, floor(completeness*100) + min(#platforms, 20)) -- truncation,
with a bonus of one point per enrichment_data entry capped at 20.
Enrichment stage: total completeness = min(1, truthy-filled/6 +
0.1*#platforms) and quality = floor(total*100) with no per-platform point
bonus.  Both quality scores stay at most 100 and both completeness scores
at most 1. -/
theorem scorer_formulas_amended (α : Type) (l : PyLead α) :
    (calculate_quality_scores l).completeness_score =
      ((baseFields l).countP filledStr : ℚ) / 6 ∧
    (calculate_quality_scores l).quality_score =
      min 100 ((⌊(((baseFields l).countP filledStr : ℚ) / 6) * 100⌋).toNat
        + min l.enrichment_data.length 20) ∧
    (calculate_enrichment_scores l).completeness_score =
      min 1 (((baseFields l).countP truthyStr : ℚ) / 6
        + (l.enrichment_data.length : ℚ) * (1/10)) ∧
    (calculate_enrichment_scores l).quality_score =
      (⌊(calculate_enrichment_scores l).completeness_score * 100⌋).toNat ∧
    (calculate_quality_scores l).quality_score ≤ 100 ∧
    (calculate_enrichment_scores l).quality_score ≤ 100 ∧
    (calculate_quality_scores l).completeness_score ≤ 1 ∧
    (calculate_enrichment_scores l).completeness_score ≤ 1 := by
  have hcount : (baseFields l).countP filledStr ≤ 6 := countP_baseFields_le l _
  have hbase : (⌊(((baseFields l).countP filledStr : ℚ) / 6) * 100⌋).toNat ≤ 100 :=
    floor_base_le_100 _ hcount
  have hcomp1 : ((baseFields l).countP filledStr : ℚ) / 6 ≤ 1 := by
    rw [div_le_one (by norm_num)]
    exact_mod_cast hcount.trans (by norm_num)
  have htot : (calculate_enrichment_scores l).completeness_score ≤ 1 := by
    simp only [calculate_enrichment_scores]
    exact min_le_left _ _
  have hq2 : (calculate_enrichment_scores l).quality_score ≤ 100 := by
    simp only [calculate_enrichment_scores]
    have h100 : (⌊(min 1 (((baseFields l).countP truthyStr : ℚ) / 6
        + (l.enrichment_data.length : ℚ) * (1/10))) * 100⌋) ≤ 100 := by
      have : (min 1 (((baseFields l).countP truthyStr : ℚ) / 6
          + (l.enrichment_data.length : ℚ) * (1/10))) * 100 ≤ 100 := by
        have := min_le_left 1 (((baseFields l).countP truthyStr : ℚ) / 6
          + (l.enrichment_data.length : ℚ) * (1/10))
        nlinarith
      calc (⌊(min 1 (((baseFields l).countP truthyStr : ℚ) / 6
            + (l.enrichment_data.length : ℚ) * (1/10))) * 100⌋)
          ≤ ⌊(100 : ℚ)⌋ := Int.floor_le_floor this
        _ = 100 := by norm_num
    omega
  refine ⟨rfl, ?_, rfl, rfl, ?_, hq2, hcomp1, htot⟩
  · simp only [calculate_quality_scores]
    rcases hED : l.enrichment_data with _ | ⟨hd, tl⟩
    · simp only [hED, List.isEmpty_nil, if_true, List.length_nil]
      omega
    · simp only [hED, List.isEmpty_cons, if_false, Bool.false_eq_true]
  · simp only [calculate_quality_scores]
    split
    · exact hbase
    · exact Nat.min_le_left _ _

/-- C5 (confirmed).  The final (simple-stage) scorer assigns confidence
0.8 exactly when its recomputed quality score exceeds 70 and 0.6
otherwise, while the incremental enrichment-stage scorer assigns
confidence min(0.95, 0.6 + 0.1 * number of enrichment_data platforms);
the first is always one of {0.6, 0.8} and the second always lies in
[0.6, 0.95]. -/
theorem confidence_score_formulas (α : Type) (l : PyLead α) :
    (calculate_quality_scores l).confidence_score =
      (if 70 < (calculate_quality_scores l).quality_score
        then (8 : ℚ)/10 else 6/10) ∧
    (calculate_enrichment_scores l).confidence_score =
      min (95/100) (6/10 + (l.enrichment_data.length : ℚ) * (1/10)) ∧
    ((calculate_quality_scores l).confidence_score = 6/10 ∨
      (calculate_quality_scores l).confidence_score = 8/10) ∧
    6/10 ≤ (calculate_enrichment_scores l).confidence_score ∧
    (calculate_enrichment_scores l).confidence_score ≤ 95/100 := by
  refine ⟨rfl, rfl, ?_, ?_, ?_⟩
  · have h1 : (calculate_quality_scores l).confidence_score =
        (if 70 < (calculate_quality_scores l).quality_score
          then (8 : ℚ)/10 else 6/10) := rfl
    rw [h1]
    split
    · exact Or.inr rfl
    · exact Or.inl rfl
  · simp only [calculate_enrichment_scores]
    refine le_min (by norm_num) ?_
    have : (0 : ℚ) ≤ (l.enrichment_data.length : ℚ) * (1/10) := by positivity
    linarith
  · simp only [calculate_enrichment_scores]
    exact min_le_left _ _

/-! ## Enrichment coordinator (PlatformEnrichmentService) -/

/-- One intensity configuration record from
PlatformEnrichmentService.__init__. -/
structure IntensityConfig where
  depth : Nat
  fields : List String
  concurrent_requests : Nat
  deriving DecidableEq, Repr

/-- The intensity_configs table from PlatformEnrichmentService.__init__. -/
def intensity_configs : ScrapingIntensity → IntensityConfig
  | .basic =>
    { depth := 1
      fields := ["basic_info"]
      concurrent_requests := 5 }
  | .standard =>
    { depth := 2
      fields := ["basic_info", "contact_info", "social_profiles"]
      concurrent_requests := 3 }
  | .premium =>
    { depth := 3
      fields := ["basic_info", "contact_info", "social_profiles",
                 "content_analysis", "network_data"]
      concurrent_requests := 2 }

/-- Platforms with a registered enricher (keys of self.enrichers). -/
def enricherPlatforms : List PlatformType :=
  [.linkedin, .facebook, .instagram, .google_search]

/-- The external outcomes of one execution: each per-platform enrich call
either returns a payload or raises, and a whole-lead task may raise
outside the per-platform try/except (asyncio.gather with
return_exceptions=True turns that into an exception object in the batch
results). -/
structure EnrichEnv (α : Type) where
  platformCall : PyLead α → PlatformType → List String → Nat → Except String α
  leadFault : PyLead α → Option String

/-- PlatformEnrichmentService._enrich_single_lead: for each requested
platform with a registered enricher, attempt the call; on success store
the payload under the platform's value key; on exception log and skip
just that platform; finally recompute the incremental scores. -/
def enrich_single_lead (env : EnrichEnv α) (lead : PyLead α)
    (platforms : List PlatformType) (config : IntensityConfig) : PyLead α :=
  let data := platforms.foldl (fun d p =>
    if p ∈ enricherPlatforms then
      match env.platformCall lead p config.fields config.depth with
      | .ok v => dictSet d p.value v
      | .error _ => d
    else d) lead.enrichment_data
  let lead1 := { lead with enrichment_data := data }
  let scores := calculate_enrichment_scores lead1
  { lead1 with
    quality_score := some scores.quality_score
    completeness_score := some scores.completeness_score
    confidence_score := some scores.confidence_score }

/-- The per-lead task submitted to asyncio.gather: the dict result of
_enrich_single_lead, or the exception object the task raised. -/
def runLeadTask (env : EnrichEnv α) (platforms : List PlatformType)
    (config : IntensityConfig) (lead : PyLead α) : Except String (PyLead α) :=
  match env.leadFault lead with
  | some m => .error m
  | none => .ok (enrich_single_lead env lead platforms config)

/-- The result collection loop of enrich_leads: keep dict results, log and
drop exception objects. -/
def collectResults (rs : List (Except String (PyLead α))) : List (PyLead α) :=
  rs.filterMap (fun r => match r with | .ok l => some l | .error _ => none)

/-- The batch slicing of enrich_leads, range(0, len(leads), batch_size),
with an explicit fuel argument (the list length) for structural
recursion. -/
def leadBatchesAux (batch_size : Nat) : Nat → List β → List (List β)
  | 0, _ => []
  | _ + 1, [] => []
  | fuel + 1, x :: xs =>
    (x :: xs).take batch_size :: leadBatchesAux batch_size fuel ((x :: xs).drop batch_size)

/-- Consecutive batches of size batch_size (the last possibly smaller). -/
def leadBatches (batch_size : Nat) (leads : List β) : List (List β) :=
  leadBatchesAux batch_size leads.length leads

/-- PlatformEnrichmentService.enrich_leads: look up the intensity config,
slice the leads into batches of the configured concurrency, run the
per-lead tasks of each batch together, collect the dict results, and
concatenate batch results in order (the fixed inter-batch pause does not
affect the data flow). -/
def enrich_leads (env : EnrichEnv α) (leads : List (PyLead α))
    (platforms : List PlatformType) (intensity : ScrapingIntensity) :
    List (PyLead α) :=
  let config := intensity_configs intensity
  let batch_size := config.concurrent_requests
  ((leadBatches batch_size leads).map (fun batch =>
    collectResults (batch.map (runLeadTask env platforms config)))).flatten

/-- The loop body of ScrapingOrchestrator._update_leads_enrichment: a
returned lead dict without an id is skipped; one with id k overwrites the
stored row with that id with the returned enrichment_data and scores. -/
def updateStep (acc : List (PyLead α)) (e : PyLead α) : List (PyLead α) :=
  match e.id with
  | none => acc
  | some k => acc.map (fun s =>
      if s.id = some k then
        { s with
          enrichment_data := e.enrichment_data
          quality_score := e.quality_score
          completeness_score := e.completeness_score
          confidence_score := e.confidence_score }
      else s)

/-- ScrapingOrchestrator._update_leads_enrichment: apply the per-dict
update for each returned lead in order. -/
def update_leads_enrichment (db : List (PyLead α)) (enriched : List (PyLead α)) :
    List (PyLead α) :=
  enriched.foldl updateStep db

/-- One enriched dict's effect on one stored row inside
_update_leads_enrichment. -/
def updOne (e : PyLead α) (s : PyLead α) : PyLead α :=
  match e.id with
  | none => s
  | some k =>
    if s.id = some k then
      { s with
        enrichment_data := e.enrichment_data
        quality_score := e.quality_score
        completeness_score := e.completeness_score
        confidence_score := e.confidence_score }
    else s

/-- The cumulative effect of update_leads_enrichment on one stored row. -/
def applyUpd (enriched : List (PyLead α)) (s : PyLead α) : PyLead α :=
  enriched.foldl (fun s e => updOne e s) s

/-- The per-lead write of ScrapingOrchestrator._calculate_quality_scores:
store the recomputed final scores on the lead. -/
def applyFinalScores (l : PyLead α) : PyLead α :=
  let s := calculate_quality_scores l
  { l with
    quality_score := some s.quality_score
    completeness_score := some s.completeness_score
    confidence_score := some s.confidence_score }

/-- ScrapingOrchestrator._calculate_quality_scores over all leads of the
job: every stored lead is rescored, unconditionally. -/
def calculate_quality_scores_all (db : List (PyLead α)) : List (PyLead α) :=
  db.map applyFinalScores

section BatchLemmas

variable {β : Type}

theorem leadBatchesAux_nil (bs fuel : Nat) :
    leadBatchesAux (β := β) bs fuel [] = [] := by
  cases fuel <;> rfl

theorem leadBatchesAux_join (bs : Nat) (hbs : 1 ≤ bs) (fuel : Nat) :
    ∀ l : List β, l.length ≤ fuel → (leadBatchesAux bs fuel l).flatten = l := by
  induction fuel with
  | zero =>
    intro l hl
    have : l = [] := List.eq_nil_of_length_eq_zero (Nat.le_zero.mp hl)
    subst this
    rfl
  | succ fuel ih =>
    intro l hl
    match l with
    | [] => rfl
    | x :: xs =>
      rw [leadBatchesAux]
      rw [List.flatten_cons]
      rw [ih ((x :: xs).drop bs) ?_]
      · exact List.take_append_drop bs (x :: xs)
      · have hlen : ((x :: xs).drop bs).length = (x :: xs).length - bs :=
          List.length_drop bs (x :: xs)
        have : (x :: xs).length ≤ fuel + 1 := hl
        simp only [List.length_cons] at this ⊢
        omega

theorem leadBatches_join (bs : Nat) (hbs : 1 ≤ bs) (l : List β) :
    (leadBatches bs l).flatten = l :=
  leadBatchesAux_join bs hbs l.length l le_rfl

theorem leadBatchesAux_mem_length (bs : Nat) (hbs : 1 ≤ bs) (fuel : Nat) :
    ∀ l : List β, ∀ b ∈ leadBatchesAux bs fuel l, b.length ≤ bs ∧ b ≠ [] := by
  induction fuel with
  | zero => intro l b hb; simp [leadBatchesAux] at hb
  | succ fuel ih =>
    intro l b hb
    match l with
    | [] => simp [leadBatchesAux] at hb
    | x :: xs =>
      rw [leadBatchesAux] at hb
      rcases List.mem_cons.mp hb with heq | hmem
      · subst heq
        constructor
        · simpa using List.length_take_le bs (x :: xs)
        · have : ((x :: xs).take bs).length = min bs (x :: xs).length :=
            List.length_take bs (x :: xs)
          intro hnil
          rw [hnil] at this
          simp only [List.length_nil, List.length_cons] at this
          omega
      · exact ih _ b hmem

theorem leadBatchesAux_dropLast_length (bs : Nat) (hbs : 1 ≤ bs) (fuel : Nat) :
    ∀ l : List β, ∀ b ∈ (leadBatchesAux bs fuel l).dropLast, b.length = bs := by
  induction fuel with
  | zero => intro l b hb; simp [leadBatchesAux] at hb
  | succ fuel ih =>
    intro l b hb
    match l with
    | [] => simp [leadBatchesAux_nil] at hb
    | x :: xs =>
      rw [leadBatchesAux] at hb
      rcases hrest : leadBatchesAux bs fuel ((x :: xs).drop bs) with _ | ⟨r, rs⟩
      · rw [hrest] at hb
        simp at hb
      · rw [hrest] at hb
        rw [List.dropLast_cons₂] at hb
        rcases List.mem_cons.mp hb with heq | hmem
        · subst heq
          have hdrop : (x :: xs).drop bs ≠ [] := by
            intro hcontra
            rw [hcontra, leadBatchesAux_nil] at hrest
            exact List.cons_ne_nil r rs hrest.symm
          have hlong : bs < (x :: xs).length := by
            have := List.length_drop bs (x :: xs)
            rcases Nat.lt_or_ge bs (x :: xs).length with h | h
            · exact h
            · exfalso
              exact hdrop (List.drop_eq_nil_of_le h)
          rw [List.length_take]
          omega
        · rw [← hrest] at hmem
          exact ih _ b hmem

theorem leadBatches_dropLast_length (bs : Nat) (hbs : 1 ≤ bs) (l : List β)
    (b : List β) (hb : b ∈ (leadBatches bs l).dropLast) : b.length = bs :=
  leadBatchesAux_dropLast_length bs hbs l.length l b hb

end BatchLemmas

theorem collect_batch (env : EnrichEnv α) (platforms : List PlatformType)
    (config : IntensityConfig) (batch : List (PyLead α)) :
    collectResults (batch.map (runLeadTask env platforms config)) =
      (batch.filter (fun l => (env.leadFault l).isNone)).map
        (fun l => enrich_single_lead env l platforms config) := by
  induction batch with
  | nil => rfl
  | cons lead rest ih =>
    simp only [List.map_cons, collectResults, List.filterMap_cons, runLeadTask]
    rcases hf : env.leadFault lead with _ | m
    · simp only [List.filter_cons, hf, Option.isNone_none, if_true, List.map_cons]
      rw [← ih]
      rfl
    · simp only [List.filter_cons, hf, Option.isNone_some, Bool.false_eq_true, if_false]
      rw [← ih]
      rfl

theorem join_filter_map_batches (bs : List (List β)) (p : β → Bool) (g : β → γ) :
    (bs.map (fun b => (b.filter p).map g)).flatten = (bs.flatten.filter p).map g := by
  induction bs with
  | nil => rfl
  | cons b rest ih =>
    simp only [List.map_cons, List.flatten_cons, List.filter_append, List.map_append, ih]

theorem intensity_concurrency_pos (i : ScrapingIntensity) :
    1 ≤ (intensity_configs i).concurrent_requests := by
  cases i <;> decide

/-- enrich_leads lets exactly the non-faulting leads through, each
independently transformed by _enrich_single_lead, in input order. -/
theorem enrichLeads_eq_filter (env : EnrichEnv α) (leads : List (PyLead α))
    (platforms : List PlatformType) (intensity : ScrapingIntensity) :
    enrich_leads env leads platforms intensity =
      (leads.filter (fun l => (env.leadFault l).isNone)).map
        (fun l => enrich_single_lead env l platforms (intensity_configs intensity)) := by
  unfold enrich_leads
  simp only [collect_batch]
  rw [join_filter_map_batches]
  rw [leadBatches_join _ (intensity_concurrency_pos intensity)]

section DictLemmas

variable {α : Type}

theorem dictGet_dictSet_self (d : List (String × α)) (k : String) (v : α) :
    dictGet (dictSet d k v) k = some v := by
  induction d with
  | nil =>
    rw [dictSet, dictGet, List.find?_cons_of_pos _ (by simp)]
    rfl
  | cons p rest ih =>
    obtain ⟨k1, w⟩ := p
    rw [dictSet]
    by_cases h : k1 == k
    · rw [if_pos h, dictGet, List.find?_cons_of_pos _ (by simp)]
      rfl
    · rw [if_neg h, dictGet, List.find?_cons_of_neg _ (by simpa using h)]
      exact ih

theorem dictGet_dictSet_ne (d : List (String × α)) (k k' : String) (v : α)
    (h : k' ≠ k) : dictGet (dictSet d k v) k' = dictGet d k' := by
  induction d with
  | nil =>
    rw [dictSet, dictGet, List.find?_cons_of_neg _ (by simpa using h.symm)]
    rfl
  | cons p rest ih =>
    obtain ⟨k1, w⟩ := p
    rw [dictSet]
    by_cases h1 : k1 == k
    · have hk1 : k1 = k := by simpa using h1
      subst hk1
      rw [if_pos (by simp)]
      rw [dictGet, List.find?_cons_of_neg _ (by simpa using h.symm),
        dictGet, List.find?_cons_of_neg _ (by simpa using h.symm)]
    · rw [if_neg h1]
      by_cases h2 : k1 == k'
      · rw [dictGet, List.find?_cons_of_pos _ (by simpa using h2),
          dictGet, List.find?_cons_of_pos _ (by simpa using h2)]
      · rw [dictGet, List.find?_cons_of_neg _ (by simpa using h2),
          dictGet, List.find?_cons_of_neg _ (by simpa using h2)]
        exact ih

end DictLemmas

theorem PlatformType.value_inj :
    ∀ p q : PlatformType, p.value = q.value → p = q := by decide

/-- Agreement of the per-platform fold of _enrich_single_lead outside the
key of a distinguished platform p0, for two executions whose per-platform
calls agree except possibly at p0. -/
theorem enrichData_fold_agree {α : Type} (env1 env2 : EnrichEnv α)
    (lead : PyLead α) (cfg : IntensityConfig) (p0 : PlatformType)
    (hcall : ∀ p, p ≠ p0 → env1.platformCall lead p cfg.fields cfg.depth =
      env2.platformCall lead p cfg.fields cfg.depth)
    (ps : List PlatformType) :
    ∀ d1 d2 : List (String × α),
      (∀ k, k ≠ p0.value → dictGet d1 k = dictGet d2 k) →
      ∀ k, k ≠ p0.value →
        dictGet (ps.foldl (fun d p =>
          if p ∈ enricherPlatforms then
            match env1.platformCall lead p cfg.fields cfg.depth with
            | .ok v => dictSet d p.value v
            | .error _ => d
          else d) d1) k =
        dictGet (ps.foldl (fun d p =>
          if p ∈ enricherPlatforms then
            match env2.platformCall lead p cfg.fields cfg.depth with
            | .ok v => dictSet d p.value v
            | .error _ => d
          else d) d2) k := by
  induction ps with
  | nil => intro d1 d2 hd k hk; exact hd k hk
  | cons p rest ih =>
    intro d1 d2 hd k hk
    simp only [List.foldl_cons]
    refine ih _ _ ?_ k hk
    intro k' hk'
    by_cases hmem : p ∈ enricherPlatforms
    · rw [if_pos hmem, if_pos hmem]
      by_cases hp : p = p0
      · subst hp
        rcases env1.platformCall lead p cfg.fields cfg.depth with v1 | m1 <;>
          rcases env2.platformCall lead p cfg.fields cfg.depth with v2 | m2 <;>
          dsimp only <;>
          first
            | exact hd k' hk'
            | (rw [dictGet_dictSet_ne _ _ _ _ hk']; exact hd k' hk')
            | (rw [dictGet_dictSet_ne _ _ _ _ hk', dictGet_dictSet_ne _ _ _ _ hk']
               exact hd k' hk')
      · rw [hcall p hp]
        rcases env2.platformCall lead p cfg.fields cfg.depth with m | v
        · dsimp only
          exact hd k' hk'
        · dsimp only
          by_cases hkv : k' = p.value
          · subst hkv
            rw [dictGet_dictSet_self, dictGet_dictSet_self]
          · rw [dictGet_dictSet_ne _ _ _ _ hkv, dictGet_dictSet_ne _ _ _ _ hkv]
            exact hd k' hk'
    · rw [if_neg hmem, if_neg hmem]
      exact hd k' hk'

theorem updateStep_eq_map (e : PyLead α) (acc : List (PyLead α)) :
    updateStep acc e = acc.map (updOne e) := by
  rcases he : e.id with _ | k
  · have hmap : acc.map (updOne e) = acc.map id :=
      List.map_congr_left (fun s _ => by simp [updOne, he])
    rw [hmap, List.map_id]
    simp [updateStep, he]
  · simp only [updateStep, he]
    exact (List.map_congr_left (fun s _ => by simp [updOne, he])).symm

theorem update_cons (db : List (PyLead α)) (e : PyLead α)
    (rest : List (PyLead α)) :
    update_leads_enrichment db (e :: rest) =
      update_leads_enrichment (updateStep db e) rest := rfl

theorem applyUpd_cons (e : PyLead α) (rest : List (PyLead α)) (s : PyLead α) :
    applyUpd (e :: rest) s = applyUpd rest (updOne e s) := rfl

theorem update_leads_enrichment_map (enriched : List (PyLead α))
    (db : List (PyLead α)) :
    update_leads_enrichment db enriched = db.map (applyUpd enriched) := by
  induction enriched generalizing db with
  | nil =>
    have hmap : db.map (applyUpd []) = db.map id :=
      List.map_congr_left (fun s _ => rfl)
    rw [hmap, List.map_id]
    rfl
  | cons e rest ih =>
    rw [update_cons, updateStep_eq_map, ih, List.map_map]
    exact List.map_congr_left (fun s _ => rfl)

theorem applyUpd_id (enriched : List (PyLead α)) (s : PyLead α)
    (h : ∀ e, e ∈ enriched → e.id = none ∨ e.id ≠ s.id) :
    applyUpd enriched s = s := by
  induction enriched with
  | nil => rfl
  | cons e rest ih =>
    rw [applyUpd_cons]
    have hstep : updOne e s = s := by
      rcases he : e.id with _ | k
      · simp [updOne, he]
      · rcases h e (List.mem_cons_self _ _) with hc | hc
        · rw [he] at hc; exact absurd hc (by simp)
        · rw [he] at hc
          simp only [updOne, he]
          rw [if_neg (fun heq => hc heq.symm)]
    rw [hstep]
    exact ih (fun e' he' => h e' (List.mem_cons_of_mem _ he'))

theorem length_filter_lt {γ : Type} (p : γ → Bool) (l : List γ) (x : γ)
    (hx : x ∈ l) (hpx : p x = false) : (l.filter p).length < l.length := by
  induction l with
  | nil => simp at hx
  | cons y ys ih =>
    rw [List.filter_cons]
    rcases List.mem_cons.mp hx with heq | hmem
    · subst heq
      rw [if_neg (by simp [hpx])]
      have := List.length_filter_le p ys
      simp only [List.length_cons]
      omega
    · split
      · simp only [List.length_cons]
        have := ih hmem
        omega
      · have := ih hmem
        have h2 := List.length_filter_le p ys
        simp only [List.length_cons]
        omega

/-- C7 (confirmed).  The three intensity configurations are exactly as
claimed (basic: depth 1, one field, concurrency 5; standard: depth 2,
three fields, concurrency 3; premium: depth 3, five fields, concurrency
2), and for every intensity the leads are partitioned into consecutive
batches: the batches concatenate back to the input in order, every batch
is non-empty of size at most the configured concurrency, and every batch
except possibly the last has size exactly the configured concurrency. -/
theorem enrichment_configs_and_batching :
    intensity_configs .basic =
      { depth := 1, fields := ["basic_info"], concurrent_requests := 5 } ∧
    intensity_configs .standard =
      { depth := 2, fields := ["basic_info", "contact_info", "social_profiles"],
        concurrent_requests := 3 } ∧
    intensity_configs .premium =
      { depth := 3,
        fields := ["basic_info", "contact_info", "social_profiles",
                   "content_analysis", "network_data"],
        concurrent_requests := 2 } ∧
    ∀ (β : Type) (leads : List β) (i : ScrapingIntensity),
      (leadBatches (intensity_configs i).concurrent_requests leads).flatten = leads ∧
      (∀ b, b ∈ leadBatches (intensity_configs i).concurrent_requests leads →
        b.length ≤ (intensity_configs i).concurrent_requests ∧ b ≠ []) ∧
      (∀ b, b ∈ (leadBatches (intensity_configs i).concurrent_requests leads).dropLast →
        b.length = (intensity_configs i).concurrent_requests) := by
  refine ⟨rfl, rfl, rfl, ?_⟩
  intro β leads i
  refine ⟨leadBatches_join _ (intensity_concurrency_pos i) leads, ?_, ?_⟩
  · intro b hb
    exact leadBatchesAux_mem_length _ (intensity_concurrency_pos i) leads.length
      leads b hb
  · intro b hb
    exact leadBatches_dropLast_length _ (intensity_concurrency_pos i) leads b hb

/-- C7 (witness).  On five leads at standard intensity (concurrency 3)
the first batch is [1, 2, 3] and has full size 3, and the batches
reassemble the input. -/
theorem enrichment_configs_and_batching_witness :
    (leadBatches (intensity_configs .standard).concurrent_requests
      [1, 2, 3, 4, 5]).flatten = [1, 2, 3, 4, 5] ∧
    ([1, 2, 3] : List Nat).length = (intensity_configs .standard).concurrent_requests := by
  constructor
  · exact (enrichment_configs_and_batching.2.2.2 Nat [1, 2, 3, 4, 5] .standard).1
  · exact (enrichment_configs_and_batching.2.2.2 Nat [1, 2, 3, 4, 5] .standard).2.2
      [1, 2, 3] (by decide)

/-- C8 (confirmed).  Per-platform isolation: the enrichment_data a lead
ends up with at any key other than a given platform's is unchanged no
matter how that platform's call turned out (two executions agreeing on
every other platform call produce the same data at every other key), so a
single platform failure is excluded only from that platform's
contribution.  Per-lead isolation: the coordinator's output is exactly
the per-lead results of the non-faulting leads in order -- one lead's
task exception neither aborts nor alters the enrichment of sibling
leads. -/
theorem enrichment_failure_isolation (α : Type) :
    (∀ (env1 env2 : EnrichEnv α) (lead : PyLead α) (ps : List PlatformType)
      (cfg : IntensityConfig) (p0 : PlatformType),
      (∀ p, p ≠ p0 → env1.platformCall lead p cfg.fields cfg.depth =
        env2.platformCall lead p cfg.fields cfg.depth) →
      ∀ k, k ≠ p0.value →
        dictGet (enrich_single_lead env1 lead ps cfg).enrichment_data k =
        dictGet (enrich_single_lead env2 lead ps cfg).enrichment_data k) ∧
    (∀ (env : EnrichEnv α) (leads : List (PyLead α)) (ps : List PlatformType)
      (i : ScrapingIntensity),
      enrich_leads env leads ps i =
        (leads.filter (fun l => (env.leadFault l).isNone)).map
          (fun l => enrich_single_lead env l ps (intensity_configs i))) := by
  constructor
  · intro env1 env2 lead ps cfg p0 hcall k hk
    exact enrichData_fold_agree env1 env2 lead cfg p0 hcall ps
      lead.enrichment_data lead.enrichment_data (fun _ _ => rfl) k hk
  · intro env leads ps i
    exact enrichLeads_eq_filter env leads ps i

/-- A lead and two environments used to witness platform-failure
isolation: in one environment the linkedin call fails, in the other it
succeeds; all other calls agree. -/
def leadW : PyLead Nat := { name := some "W" }

def envAllOk : EnrichEnv Nat :=
  { platformCall := fun _ _ _ _ => .ok 7
    leadFault := fun _ => none }

def envLinkedInDown : EnrichEnv Nat :=
  { platformCall := fun _ p _ _ => if p = .linkedin then .error "timeout" else .ok 7
    leadFault := fun _ => none }

/-- C8 (witness).  With linkedin failing in one run and succeeding in the
other, the facebook contribution is identical in both runs (and present),
while the linkedin key is absent only in the failing run. -/
theorem enrichment_failure_isolation_witness :
    dictGet (enrich_single_lead envLinkedInDown leadW [.linkedin, .facebook]
      (intensity_configs .standard)).enrichment_data "facebook" =
    dictGet (enrich_single_lead envAllOk leadW [.linkedin, .facebook]
      (intensity_configs .standard)).enrichment_data "facebook" ∧
    dictGet (enrich_single_lead envLinkedInDown leadW [.linkedin, .facebook]
      (intensity_configs .standard)).enrichment_data "linkedin" = none ∧
    dictGet (enrich_single_lead envAllOk leadW [.linkedin, .facebook]
      (intensity_configs .standard)).enrichment_data "linkedin" = some 7 := by
  refine ⟨?_, by decide, by decide⟩
  exact (enrichment_failure_isolation Nat).1 envLinkedInDown envAllOk leadW
    [.linkedin, .facebook] (intensity_configs .standard) .linkedin
    (by
      intro p hp
      simp only [envLinkedInDown, envAllOk]
      rw [if_neg hp])
    "facebook" (by decide)

/-- C10 (confirmed).  A lead whose whole-lead task raises is silently
omitted from enrich_leads' return (only success results are collected),
so the output can be shorter than the input and is exactly the
non-faulting leads' results; _update_leads_enrichment is a per-row update
that leaves any stored row untouched whose id matches no returned lead,
and the final _calculate_quality_scores pass rescores every stored lead
of the job unconditionally. -/
theorem enrich_omission_and_targeted_update (α : Type) (env : EnrichEnv α)
    (leads : List (PyLead α)) (ps : List PlatformType) (i : ScrapingIntensity)
    (db : List (PyLead α)) :
    (enrich_leads env leads ps i).length ≤ leads.length ∧
    ((∃ l, l ∈ leads ∧ (env.leadFault l).isSome) →
      (enrich_leads env leads ps i).length < leads.length) ∧
    (∀ l, l ∈ leads → (env.leadFault l).isNone = true →
      enrich_single_lead env l ps (intensity_configs i) ∈ enrich_leads env leads ps i) ∧
    update_leads_enrichment db (enrich_leads env leads ps i) =
      db.map (applyUpd (enrich_leads env leads ps i)) ∧
    (∀ s, s ∈ db →
      (∀ e, e ∈ enrich_leads env leads ps i → e.id = none ∨ e.id ≠ s.id) →
      s ∈ update_leads_enrichment db (enrich_leads env leads ps i)) ∧
    (∀ s, s ∈ db → applyFinalScores s ∈ calculate_quality_scores_all db) := by
  refine ⟨?_, ?_, ?_, update_leads_enrichment_map _ _, ?_, ?_⟩
  · rw [enrichLeads_eq_filter, List.length_map]
    exact List.length_filter_le _ _
  · rintro ⟨l, hl, hf⟩
    rw [enrichLeads_eq_filter, List.length_map]
    have hfalse : (fun l => (env.leadFault l).isNone) l = false := by
      simp only []
      rcases hopt : env.leadFault l with _ | m
      · rw [hopt] at hf; simp at hf
      · rfl
    exact length_filter_lt _ leads l hl hfalse
  · intro l hl hn
    rw [enrichLeads_eq_filter]
    exact List.mem_map_of_mem _ (List.mem_filter.mpr ⟨hl, hn⟩)
  · intro s hs hnone
    rw [update_leads_enrichment_map]
    have hid : applyUpd (enrich_leads env leads ps i) s = s :=
      applyUpd_id _ s hnone
    exact hid ▸ List.mem_map_of_mem _ hs
  · intro s hs
    exact List.mem_map_of_mem _ hs

/-- Stored rows and an environment whose whole-lead task raises for the
row with id 2, used to witness omission and targeted update. -/
def storedA : PyLead Nat := { id := some 1, name := some "A" }

def storedB : PyLead Nat := { id := some 2, name := some "B" }

def envFaultB : EnrichEnv Nat :=
  { platformCall := fun _ _ _ _ => .ok 3
    leadFault := fun l => if l.id = some 2 then some "boom" else none }

/-- C10 (witness).  With the id-2 lead's task raising, the returned list
is shorter than the input, and the id-2 stored row is untouched by the
enrichment update. -/
theorem enrich_omission_and_targeted_update_witness :
    (enrich_leads envFaultB [storedA, storedB] [.facebook] .basic).length <
      ([storedA, storedB] : List (PyLead Nat)).length ∧
    storedB ∈ update_leads_enrichment [storedA, storedB]
      (enrich_leads envFaultB [storedA, storedB] [.facebook] .basic) := by
  constructor
  · exact (enrich_omission_and_targeted_update Nat envFaultB [storedA, storedB]
      [.facebook] .basic [storedA, storedB]).2.1 ⟨storedB, by decide, by decide⟩
  · exact (enrich_omission_and_targeted_update Nat envFaultB [storedA, storedB]
      [.facebook] .basic [storedA, storedB]).2.2.2.2.1 storedB (by decide)
      (by decide)

/-! ## Job pipeline (ScrapingOrchestrator.process_job) -/

/-- The pipeline stages of process_job in which an unhandled exception
can arise (spec stages 2-6). -/
inductive Stage
  | discovery
  | persistence
  | enrichment
  | scoring
  | finalization
  deriving DecidableEq, Repr

/-- A write the orchestrator issues against the job row
(_update_job_status, _update_job_progress, the results_count update of
_save_leads). -/
inductive JobWrite
  | setStatus (s : JobStatus) (error_message : Option String)
      (started_at : Option Nat) (completed_at : Option Nat)
  | setProgress (p : Nat)
  | setResultsCount (n : Nat)
  deriving DecidableEq, Repr

/-- One job execution's external circumstances: whether the job row was
found, the request parameters that steer control flow, the discovery
result size, the first stage (if any) at which an unhandled exception is
raised together with its message, and the clock readings used for
started_at and completed_at.  Timestamps are abstract ticks. -/
structure PipelineEnv where
  jobFound : Bool
  platforms : List PlatformType
  intensity : ScrapingIntensity
  discoveredCount : Nat
  failAt : Option (Stage × String)
  startTime : Nat
  endTime : Nat
  deriving DecidableEq, Repr

/-- The exception this execution raises at the given stage, if any. -/
def stageFail (env : PipelineEnv) (s : Stage) : Option String :=
  match env.failAt with
  | some (s', m) => if s' = s then some m else none
  | none => none

/-- The enrichment-stage guard of process_job:
len(platforms) > 1 or intensity != BASIC. -/
def enrichmentEnabled (env : PipelineEnv) : Bool :=
  decide (1 < env.platforms.length) ||
    decide (env.intensity ≠ ScrapingIntensity.basic)

/-- The writes of the except-handler of process_job: transition to Failed
with the exception message and a completion timestamp. -/
def failWrites (env : PipelineEnv) (m : String) : List JobWrite :=
  [.setStatus .failed (some m) none (some env.endTime)]

/-- The tail of process_job from the scoring stage on (shared by the
enrichment-enabled and enrichment-skipped paths). -/
def scoringTail (env : PipelineEnv) (pre : List JobWrite) :
    List JobWrite × Option String :=
  match stageFail env .scoring with
  | some m => (pre ++ failWrites env m, none)
  | none =>
    let pre := pre ++ [JobWrite.setProgress 90]
    match stageFail env .finalization with
    | some m => (pre ++ failWrites env m, none)
    | none =>
      (pre ++ [JobWrite.setStatus .completed none none (some env.endTime),
               JobWrite.setProgress 100], none)

/-- ScrapingOrchestrator.process_job as the ordered sequence of job-row
writes it issues, paired with the exception (if any) escaping to the
caller.  The top-level try/except catches every stage exception, records
Failed, and falls through normally, so nothing ever escapes. -/
def process_job (env : PipelineEnv) : List JobWrite × Option String :=
  if !env.jobFound then ([], none)
  else
    let pre := [JobWrite.setStatus .processing none (some env.startTime) none,
                JobWrite.setProgress 10]
    match stageFail env .discovery with
    | some m => (pre ++ failWrites env m, none)
    | none =>
      let pre := pre ++ [JobWrite.setProgress 30]
      match stageFail env .persistence with
      | some m => (pre ++ failWrites env m, none)
      | none =>
        let pre := pre ++ [JobWrite.setResultsCount env.discoveredCount,
                           JobWrite.setProgress 40]
        if enrichmentEnabled env then
          match stageFail env .enrichment with
          | some m => (pre ++ failWrites env m, none)
          | none => scoringTail env (pre ++ [JobWrite.setProgress 80])
        else
          scoringTail env pre

/-- The visible outcome of the Celery task wrapping the pipeline. -/
inductive TaskOutcome
  | success
  | retried (msg : String)
  deriving DecidableEq, Repr

/-- scraping_tasks.process_job_pipeline: runs the orchestrator; only an
exception escaping process_job reaches its except-handler, which marks
the job failed again and invokes self.retry. -/
def process_job_pipeline (env : PipelineEnv) : TaskOutcome :=
  match (process_job env).2 with
  | some m => .retried m
  | none => .success

/-- The progress values of a write trace, in order. -/
def progressWrites : List JobWrite → List Nat
  | [] => []
  | .setProgress p :: rest => p :: progressWrites rest
  | _ :: rest => progressWrites rest

/-- C9 (confirmed).  For every execution, the sequence of progress values
process_job writes is non-decreasing (10, 30, 40, then 80 when the
enrichment stage runs, 90, 100 on the successful path; a prefix of it on
a failing path, the failure handler writing no progress at all), and on a
fault-free run it is exactly the claimed sequence. -/
theorem progress_monotone (env : PipelineEnv) :
    List.Chain' (· ≤ ·) (progressWrites (process_job env).1) ∧
    (env.jobFound = true → env.failAt = none →
      progressWrites (process_job env).1 =
        if enrichmentEnabled env then [10, 30, 40, 80, 90, 100]
        else [10, 30, 40, 90, 100]) := by
  by_cases hf : env.jobFound = true
  · rcases henv : env.failAt with _ | ⟨s, m⟩
    · constructor
      · by_cases he : enrichmentEnabled env = true <;>
          [skip; rw [Bool.not_eq_true] at he] <;>
          simp [process_job, hf, stageFail, henv, he, scoringTail, failWrites,
            progressWrites]
      · intro _ _
        by_cases he : enrichmentEnabled env = true <;>
          [skip; rw [Bool.not_eq_true] at he] <;>
          simp [process_job, hf, stageFail, henv, he, scoringTail, failWrites,
            progressWrites]
    · constructor
      · cases s <;>
          (by_cases he : enrichmentEnabled env = true <;>
            [skip; rw [Bool.not_eq_true] at he] <;>
            simp [process_job, hf, stageFail, henv, he, scoringTail, failWrites,
              progressWrites])
      · intro _ hnone
        exact absurd hnone (by simp)
  · rw [Bool.not_eq_true] at hf
    constructor
    · simp [process_job, hf, progressWrites]
    · intro hjf
      rw [hf] at hjf
      exact absurd hjf (by simp)

/-- A fault-free run with two platforms at premium intensity. -/
def envCleanRun : PipelineEnv :=
  { jobFound := true
    platforms := [.google_maps, .linkedin]
    intensity := .premium
    discoveredCount := 3
    failAt := none
    startTime := 1
    endTime := 2 }

/-- C9 (witness).  On the fault-free premium run, the progress writes are
exactly 10, 30, 40, 80, 90, 100, and they are non-decreasing. -/
theorem progress_monotone_witness :
    progressWrites (process_job envCleanRun).1 = [10, 30, 40, 80, 90, 100] ∧
    List.Chain' (· ≤ ·) (progressWrites (process_job envCleanRun).1) := by
  refine ⟨?_, (progress_monotone envCleanRun).1⟩
  have h := (progress_monotone envCleanRun).2 rfl rfl
  simpa using h

/-- A run whose discovery stage raises. -/
def envBoom : PipelineEnv :=
  { jobFound := true
    platforms := [.google_maps]
    intensity := .standard
    discoveredCount := 0
    failAt := some (.discovery, "boom")
    startTime := 5
    endTime := 9 }

/-- C2 (counterexample).  The claim says the orchestrator re-raises the
stage exception to the external executor.  On the code, process_job's
top-level except block records Failed and falls through without a raise:
with the discovery stage raising "boom", the job is marked Failed with
the message and a completion timestamp, but no exception escapes and the
Celery task reports success, so autoretry never sees an error. -/
theorem exception_not_reraised_counterexample :
    (process_job envBoom).2 = none ∧
    process_job_pipeline envBoom = .success ∧
    (process_job envBoom).1 =
      [.setStatus .processing none (some 5) none,
       .setProgress 10,
       .setStatus .failed (some "boom") none (some 9)] := by
  decide

/-- C2 (amended).  On an unhandled exception in any of stages 2-6 that
actually runs, process_job transitions the job to Failed, persists the
exception message as error_message and records a completion timestamp
(as its final job-row write), but swallows the exception: nothing escapes
to the external executor, whose task wrapper therefore reports success
and never invokes its retry policy. -/
theorem stage_exception_swallowed (env : PipelineEnv) (s : Stage) (m : String)
    (hf : env.jobFound = true) (hfail : env.failAt = some (s, m))
    (hen : s = Stage.enrichment → enrichmentEnabled env = true) :
    (process_job env).2 = none ∧
    process_job_pipeline env = .success ∧
    (process_job env).1.getLast? =
      some (JobWrite.setStatus .failed (some m) none (some env.endTime)) := by
  cases s
  case discovery =>
    refine ⟨?_, ?_, ?_⟩ <;>
      simp [process_job, process_job_pipeline, hf, stageFail, hfail,
        scoringTail, failWrites, List.getLast?]
  case persistence =>
    refine ⟨?_, ?_, ?_⟩ <;>
      simp [process_job, process_job_pipeline, hf, stageFail, hfail,
        scoringTail, failWrites, List.getLast?]
  case enrichment =>
    have he := hen rfl
    refine ⟨?_, ?_, ?_⟩ <;>
      simp [process_job, process_job_pipeline, hf, stageFail, hfail, he,
        scoringTail, failWrites, List.getLast?]
  case scoring =>
    by_cases he : enrichmentEnabled env = true <;>
      [skip; rw [Bool.not_eq_true] at he] <;>
      refine ⟨?_, ?_, ?_⟩ <;>
      simp [process_job, process_job_pipeline, hf, stageFail, hfail, he,
        scoringTail, failWrites, List.getLast?]
  case finalization =>
    by_cases he : enrichmentEnabled env = true <;>
      [skip; rw [Bool.not_eq_true] at he] <;>
      refine ⟨?_, ?_, ?_⟩ <;>
      simp [process_job, process_job_pipeline, hf, stageFail, hfail, he,
        scoringTail, failWrites, List.getLast?]

/-- A run whose scoring stage raises. -/
def envScoringBoom : PipelineEnv :=
  { jobFound := true
    platforms := [.google_maps]
    intensity := .premium
    discoveredCount := 2
    failAt := some (.scoring, "db write lost")
    startTime := 3
    endTime := 8 }

/-- C2 (witness).  With the scoring stage raising, the final job-row
write is the Failed transition carrying the message and completion time,
and the task wrapper reports success. -/
theorem stage_exception_swallowed_witness :
    (process_job envScoringBoom).2 = none ∧
    process_job_pipeline envScoringBoom = .success ∧
    (process_job envScoringBoom).1.getLast? =
      some (JobWrite.setStatus .failed (some "db write lost") none (some 8)) :=
  stage_exception_swallowed envScoringBoom .scoring "db write lost" rfl rfl
    (fun h => by cases h)

/-! ## Cancellation (routes.cancel_job) and job submission concurrency -/

/-- A scraping_jobs row as the API routes see it. -/
structure JobRow where
  id : Nat
  status : JobStatus
  progress : Nat := 0
  results_count : Nat := 0
  error_message : Option String := none
  started_at : Option Nat := none
  completed_at : Option Nat := none
  deriving DecidableEq, Repr

/-- The select-by-id query of the routes. -/
def findJob (db : List JobRow) (jid : Nat) : Option JobRow :=
  db.find? (fun j => j.id == jid)

/-- The outcome the cancel route reports: 404 when the row is missing,
400 (naming the current status) when the job is terminal, success
otherwise. -/
inductive CancelResult
  | notFound
  | invalidTransition (s : JobStatus)
  | ok
  deriving DecidableEq, Repr

/-- routes.cancel_job: look the job up; reject terminal states with a
400-equivalent naming the status before any mutation; otherwise set
status=Cancelled with a completion timestamp and commit. -/
def cancel_job (db : List JobRow) (jid : Nat) (now : Nat) :
    CancelResult × List JobRow :=
  match findJob db jid with
  | none => (.notFound, db)
  | some j =>
    if j.status = .completed ∨ j.status = .failed ∨ j.status = .cancelled then
      (.invalidTransition j.status, db)
    else
      (.ok, db.map (fun r =>
        if r.id = jid then
          { r with status := .cancelled, completed_at := some now }
        else r))

theorem findJob_cancel_map (db : List JobRow) (jid now : Nat) (j : JobRow)
    (hfind : findJob db jid = some j) :
    findJob (db.map (fun r =>
        if r.id = jid then
          { r with status := .cancelled, completed_at := some now }
        else r)) jid =
      some { j with status := .cancelled, completed_at := some now } := by
  induction db with
  | nil => simp [findJob] at hfind
  | cons r rest ih =>
    by_cases hr : r.id = jid
    · have hj : j = r := by
        rw [findJob, List.find?_cons_of_pos _ (by simpa using hr)] at hfind
        exact (Option.some_injective _ hfind).symm
      subst hj
      rw [List.map_cons, if_pos hr, findJob,
        List.find?_cons_of_pos _ (by simpa using hr)]
    · rw [findJob, List.find?_cons_of_neg _ (by simpa using hr)] at hfind
      rw [List.map_cons, if_neg hr, findJob,
        List.find?_cons_of_neg _ (by simpa using hr)]
      exact ih hfind

/-- C6 (confirmed).  A cancellation request against a job in Completed,
Failed or Cancelled fails with an invalid-transition error naming that
terminal status and leaves the store unchanged; against a Queued or
Processing job it succeeds, the job ends Cancelled with a completion
timestamp, and rows with other ids are untouched. -/
theorem cancel_terminal_rejected_active_cancelled (db : List JobRow)
    (jid now : Nat) (j : JobRow) (hfind : findJob db jid = some j) :
    ((j.status = .completed ∨ j.status = .failed ∨ j.status = .cancelled) →
      cancel_job db jid now = (.invalidTransition j.status, db)) ∧
    ((j.status = .queued ∨ j.status = .processing) →
      (cancel_job db jid now).1 = .ok ∧
      findJob (cancel_job db jid now).2 jid =
        some { j with status := .cancelled, completed_at := some now } ∧
      ∀ r, r ∈ db → r.id ≠ jid → r ∈ (cancel_job db jid now).2) := by
  constructor
  · intro hterm
    rw [cancel_job, hfind]
    dsimp only
    rw [if_pos hterm]
  · intro hact
    have hterm : ¬(j.status = .completed ∨ j.status = .failed ∨
        j.status = .cancelled) := by
      rcases hact with h | h <;> rw [h] <;> rintro (hc | hc | hc) <;> cases hc
    have hres : cancel_job db jid now =
        (.ok, db.map (fun r =>
          if r.id = jid then
            { r with status := .cancelled, completed_at := some now }
          else r)) := by
      rw [cancel_job, hfind]
      dsimp only
      rw [if_neg hterm]
    refine ⟨by rw [hres], ?_, ?_⟩
    · rw [hres]
      exact findJob_cancel_map db jid now j hfind
    · intro r hr hrid
      rw [hres]
      have : (if r.id = jid then
          { r with status := .cancelled, completed_at := some now } else r) = r :=
        if_neg hrid
      exact this ▸ List.mem_map_of_mem _ hr

/-- A store with one terminal and one active job. -/
def dbTwoJobs : List JobRow :=
  [{ id := 1, status := .completed }, { id := 2, status := .queued }]

/-- C6 (witness).  Cancelling the completed job 1 is rejected naming
Completed and the store is unchanged; cancelling the queued job 2
succeeds and the row ends Cancelled with completed_at set. -/
theorem cancel_terminal_rejected_active_cancelled_witness :
    cancel_job dbTwoJobs 1 7 = (.invalidTransition .completed, dbTwoJobs) ∧
    (cancel_job dbTwoJobs 2 7).1 = .ok ∧
    findJob (cancel_job dbTwoJobs 2 7).2 2 =
      some { id := 2, status := .cancelled, completed_at := some 7 } := by
  refine ⟨?_, ?_, ?_⟩
  · exact (cancel_terminal_rejected_active_cancelled dbTwoJobs 1 7
      { id := 1, status := .completed } (by decide)).1 (Or.inl rfl)
  · exact ((cancel_terminal_rejected_active_cancelled dbTwoJobs 2 7
      { id := 2, status := .queued } (by decide)).2 (Or.inl rfl)).1
  · exact ((cancel_terminal_rejected_active_cancelled dbTwoJobs 2 7
      { id := 2, status := .queued } (by decide)).2 (Or.inl rfl)).2.1

/-- The orchestrator's configured concurrency limit
(ScrapingOrchestrator.__init__); process_job never consults it. -/
def max_concurrent_jobs : Nat := 5

/-- routes.create_scraping_job: insert a Queued row, then schedule
process_job as a background task; no concurrency check. -/
def create_scraping_job (db : List JobRow) (jid : Nat) : List JobRow :=
  db ++ [{ id := jid, status := .queued }]

/-- The first job-row write of a started process_job task: the status is
set to Processing unconditionally -- neither max_concurrent_jobs nor the
number of rows already Processing is consulted, and the active_jobs
registry is never populated. -/
def startProcessing (db : List JobRow) (jid : Nat) (t : Nat) : List JobRow :=
  db.map (fun r =>
    if r.id = jid then { r with status := .processing, started_at := some t }
    else r)

/-- Number of rows currently in the Processing state. -/
def processingCount (db : List JobRow) : Nat :=
  db.countP (fun r => r.status == .processing)

/-- Six jobs submitted while none has finished, each background task
having issued its first status write. -/
def sixStarted : List JobRow :=
  (List.range 6).foldl (fun db j => startProcessing (create_scraping_job db j) j 0) []

/-- C3 (refuted by the code; the claim matches the declared intent).
Submitting six jobs and letting each background task start puts six rows
in Processing simultaneously: the configured limit of five is never
enforced and no job waits in Queued for a slot. -/
theorem concurrency_limit_not_enforced :
    max_concurrent_jobs = 5 ∧
    processingCount sixStarted = 6 ∧
    max_concurrent_jobs < processingCount sixStarted := by
  decide

end LeadScraper
